import Mathlib

/-!
# Verification of the LLM-vs-LLM debate app

Shallow embedding of the turn-taking debate application:
* the shared message type (`src/unnamed/part_002`, `types.ts`),
* the two adapter routes `POST /api/openai-turn` (`src/unnamed/part_001`) and
  `POST /api/llama-turn` (`src/unnamed/part_000`),
* the client-side turn controller (`src/app/page.tsx`), and
* the structured (JSON) export of a session (`exportConversation`).

Stateful client code is modelled by explicit state passing: session states
form a record type, the event handlers and effects become functions on it,
and the possible runtime transitions form a step relation whose reflexive
transitive closure from the initial state gives the reachable states.
-/

set_option linter.unusedVariables false

/-- The two speaker identities of `ChatMsg.speaker` (`src/unnamed/part_002`):
`"openai"` or `"llama"`. -/
inductive Speaker where
  | openai
  | llama
deriving DecidableEq

/-- The string tag of a speaker, exactly as it appears in the TypeScript union
type and in the JSON wire format. -/
def Speaker.str : Speaker → String
  | .openai => "openai"
  | .llama => "llama"

/-- `setTurn(t => t === "openai" ? "llama" : "openai")` (`src/app/page.tsx:106`). -/
def Speaker.flip : Speaker → Speaker
  | .openai => .llama
  | .llama => .openai

/-- One conversation message, `type ChatMsg = { speaker: "openai" | "llama";
content: string }` (`src/unnamed/part_002`). -/
structure ChatMsg where
  speaker : Speaker
  content : String
deriving DecidableEq

/-- Model of JS `String.prototype.toUpperCase()`. Only ever applied to the two
ASCII speaker tags, for which the ASCII `Char.toUpper` mapping agrees with JS. -/
def upperAscii (s : String) : String := String.mk (s.data.map Char.toUpper)

/-- The whitespace class stripped by JS `String.prototype.trim()`
(restricted to the common ASCII whitespace characters). -/
def isJsWhitespace (c : Char) : Bool :=
  c == ' ' || c == '\t' || c == '\n' || c == '\r' || c == '\x0b' || c == '\x0c'

/-- Model of JS `String.prototype.trim()`: strips whitespace from both ends. -/
def jsTrim (s : String) : String :=
  String.mk (((s.data.dropWhile isJsWhitespace).reverse.dropWhile isJsWhitespace).reverse)

/-- Reply extraction shared by both routes: `(text ?? "").trim() || "(sin
respuesta)"` (`src/unnamed/part_001:44`, `src/unnamed/part_000:84`). A missing
or all-whitespace reply becomes the fixed placeholder. -/
def extractReply (t : Option String) : String :=
  let s := jsTrim (t.getD "")
  if s = "" then "(sin respuesta)" else s

/-- One role-tagged message of an outbound model request. -/
structure RoleMsg where
  role : String
  content : String
deriving DecidableEq

/-- The JSON body `{ history, topic }` the client POSTs to either adapter route
(`src/app/page.tsx:99`). The llama route never reads `topic`; the openai route
reads it as optional. -/
structure TurnReqBody where
  history : List ChatMsg
  topic : Option String
deriving DecidableEq

/-- Result of one adapter route: either the new message (HTTP 200) or a JSON
error payload `{ error }` together with its HTTP status. -/
inductive AdapterResult where
  | msg (m : ChatMsg)
  | err (emsg : String) (status : Nat)
deriving DecidableEq

/-- The system instruction of the openai route (`src/unnamed/part_001:29-31`,
the two concatenated string literals). -/
def openaiSystemPrompt : String :=
  "Eres un LLM participando en una conversación alternada con otro LLM. " ++
  "Responde en 2-4 frases siendo muy rádical sobre el tópico que se pide. No hagas preguntas al usuario; habla al otro modelo."

/-- `transcript` (`src/unnamed/part_001:16-21`): `history?.length ?
history.map(m => speaker.toUpperCase() + ": " + content).join("\n") : ""`. -/
def openaiTranscript (history : List ChatMsg) : String :=
  if history.length ≠ 0 then
    String.intercalate "\n" (history.map (fun m => upperAscii m.speaker.str ++ ": " ++ m.content))
  else ""

/-- The user-role content of the openai request (`src/unnamed/part_001:33-39`):
a continuation prompt over the transcript when it is non-empty, otherwise an
opening prompt synthesized from the topic (default `"tecnología"`). -/
def openaiUserContent (history : List ChatMsg) (topic : Option String) : String :=
  let transcript := openaiTranscript history
  if transcript.length > 0 then
    "Conversación hasta ahora:\n" ++ transcript ++ "\n\nAhora te toca hablar. Continúa."
  else
    "Inicia una conversación con otro LLM sobre este tema: \"" ++ topic.getD "tecnología" ++ "\"."

/-- The `input` list of the openai request (`src/unnamed/part_001:26-40`): one
system instruction then one user message. -/
def openaiInput (history : List ChatMsg) (topic : Option String) : List RoleMsg :=
  [⟨"system", openaiSystemPrompt⟩, ⟨"user", openaiUserContent history topic⟩]

/-- `POST /api/openai-turn` (`src/unnamed/part_001`). `outcome` is the upstream
call's result: `.error e` models a thrown exception (with its optional
`message`), `.ok t` models a response whose `output_text` is `t`. On success
the route answers `{ speaker: "openai", content: extractReply t }`; on an
exception it answers `{ error: e.message ?? "OpenAI error" }` with status 500. -/
def openaiPOST (body : TurnReqBody) (outcome : Except (Option String) (Option String)) :
    AdapterResult :=
  match outcome with
  | .error e => .err (e.getD "OpenAI error") 500
  | .ok output_text => .msg ⟨.openai, extractReply output_text⟩

/-- The system instruction of the llama route (`src/unnamed/part_000:41-44`). -/
def llamaSystemPrompt : String :=
  "Eres un LLM hablando con otro LLM, ten en cuenta que eres muy pasota y eres muy feliz en la vida sin darle mucha importancia a las cosas. Responde en 2-4 frases. " ++
  "No hables como si fueras un humano."

/-- `messages` (`src/unnamed/part_000:39-55`): system instruction, then every
history entry as an assistant-role line `SPEAKER: content`, then the final
user-role nudge. -/
def llamaMessages (history : List ChatMsg) : List RoleMsg :=
  ⟨"system", llamaSystemPrompt⟩ ::
    (history.map (fun m => ⟨"assistant", upperAscii m.speaker.str ++ ": " ++ m.content⟩) ++
      [⟨"user", "Ahora te toca responder. Continúa la conversación."⟩])

/-- The outbound Ollama HTTP request: url, model, message list, stream flag. -/
structure LlamaRequest where
  url : String
  model : String
  messages : List RoleMsg
  stream : Bool
deriving DecidableEq

/-- The request the llama route sends (`src/unnamed/part_000:26-70`): env
configuration with hardcoded fallbacks, `POST {baseUrl}/api/chat` with
`{ model, messages, stream: false }`. -/
def llamaOutbound (envBaseUrl envModel : Option String) (body : TurnReqBody) : LlamaRequest :=
  { url := envBaseUrl.getD "http://localhost:11434" ++ "/api/chat"
    model := envModel.getD "llama3"
    messages := llamaMessages body.history
    stream := false }

/-- The upstream Ollama HTTP response exactly as the route reads it: `r.ok`,
`r.status`, the error body text, and `data?.message?.content`. -/
structure UpstreamResp where
  ok : Bool
  status : Nat
  bodyText : String
  messageContent : Option String
deriving DecidableEq

/-- `POST /api/llama-turn` (`src/unnamed/part_000`) given the upstream outcome
(`.error e` = thrown exception, `.ok r` = HTTP response). Non-ok upstream
responses become `{ error: "Ollama error {status}: {text}" }` with status 500;
ok responses become `{ speaker: "llama", content: extractReply ... }`. -/
def llamaPOST (body : TurnReqBody) (outcome : Except (Option String) UpstreamResp) :
    AdapterResult :=
  match outcome with
  | .error e => .err (e.getD "Ollama error") 500
  | .ok r =>
    if r.ok then .msg ⟨.llama, extractReply r.messageContent⟩
    else .err ("Ollama error " ++ toString r.status ++ ": " ++ r.bodyText) 500

/-- The client-side session state (`src/app/page.tsx:8-17`): the `useState`
variables of the turn controller. The transient `loading` flag is not modelled
because every turn is modelled as one atomic transition. -/
structure SessionState where
  topic : String
  history : List ChatMsg
  turn : Speaker
  roundCount : Nat
  isRunning : Bool
  error : Option String
  showExport : Bool
deriving DecidableEq

/-- `const maxRounds = 10` (`src/app/page.tsx:15`). -/
def maxRounds : Nat := 10

/-- The initial values of the `useState` hooks (`src/app/page.tsx:8-17`). -/
def initialState : SessionState :=
  { topic := "Impacto de la IA en la educación", history := [], turn := .openai,
    roundCount := 0, isRunning := false, error := none, showExport := false }

/-- The success path of `nextTurn()` (`src/app/page.tsx:90-107`): clear the
error, append the returned message, flip the turn, increment the round count. -/
def nextTurnSuccess (s : SessionState) (m : ChatMsg) : SessionState :=
  { s with
    error := none
    history := s.history ++ [m]
    turn := s.turn.flip
    roundCount := s.roundCount + 1 }

/-- The failure path of `nextTurn()` (`src/app/page.tsx:108-114`): record the
error text, stop the run, offer export when history is non-empty; history,
turn and round count are untouched. -/
def nextTurnFailure (s : SessionState) (emsg : String) : SessionState :=
  { s with
    error := some emsg
    isRunning := false
    showExport := if s.history.length > 0 then true else s.showExport }

/-- How `nextTurn()` consumes one adapter result: a 200 message is appended
(`res.json()` then the success path), an error payload throws (the client's
`if (!res.ok) throw` on the 500 response) into the failure path. -/
def applyTurnResult (s : SessionState) (r : AdapterResult) : SessionState :=
  match r with
  | .msg m => nextTurnSuccess s m
  | .err emsg _ => nextTurnFailure s emsg

/-- `reset()` (`src/app/page.tsx:128-135`). -/
def reset (s : SessionState) : SessionState :=
  { s with
    history := []
    turn := .openai
    error := none
    roundCount := 0
    isRunning := false
    showExport := false }

/-- `stopDebate()` (`src/app/page.tsx:137-140`). -/
def stopDebate (s : SessionState) : SessionState :=
  { s with
    isRunning := false
    showExport := if s.history.length > 0 then true else s.showExport }

/-- `startConversation()` (`src/app/page.tsx:142-147`): reset when history is
non-empty, then mark the session running (the `void nextTurn()` it fires is a
separate `turnSuccess`/`turnFailure` transition). -/
def startConversation (s : SessionState) : SessionState :=
  let s1 := if s.history.length > 0 then reset s else s
  { s1 with isRunning := true, showExport := false }

/-- The cap branch of the auto-continuation effect (`src/app/page.tsx:122-125`):
`isRunning && roundCount >= maxRounds` stops the run and offers export. -/
def autoFinish (s : SessionState) : SessionState :=
  { s with isRunning := false, showExport := true }

/-- The topic input's `onChange` handler (`src/app/page.tsx:223`). -/
def setTopic (s : SessionState) (t : String) : SessionState := { s with topic := t }

/-- The effect at `src/app/page.tsx:39-41`: `if (isFinished &&
history.length > 0) setShowExport(true)`. -/
def markExportable (s : SessionState) : SessionState := { s with showExport := true }

/-- One runtime transition of the turn controller. `nextTurn()` is invoked
from two places, which differ in which `turn` value picks the endpoint
(`src/app/page.tsx:94`).

(1) The auto-continuation effect (`src/app/page.tsx:117-121`), guarded by
`isRunning && !loading && roundCount < maxRounds`. It runs in a fresh render
closure, so a successful turn commits a message by the current `s.turn`
speaker: the route chosen for `openai` always answers `speaker: "openai"` and
the `llama` route always answers `speaker: "llama"` (`openaiPOST`/`llamaPOST`).
These are `turnSuccess`/`turnFailure`.

(2) `startConversation` (`src/app/page.tsx:142-147`) fires `void nextTurn()`
in the same render that merely scheduled the `reset()` state updates: the
fetch endpoint is chosen from the stale pre-reset `turn`, while the functional
updates (`setHistory(h => ...)`, `setTurn(t => ...)`, `setRoundCount(r => ...)`)
apply to the post-reset state. So `startTurnSuccess` commits a message by the
pre-state's `s.turn` onto `startConversation s` (whose history is empty), and
`startTurnFailure` is the same call failing. `doStart` alone is the case in
which that fired call has not (yet) landed.

The remaining constructors are the other event handlers and effects. -/
inductive Step : SessionState → SessionState → Prop
  | turnSuccess (s : SessionState) (content : String)
      (hrun : s.isRunning = true) (hlt : s.roundCount < maxRounds) :
      Step s (nextTurnSuccess s ⟨s.turn, content⟩)
  | turnFailure (s : SessionState) (emsg : String)
      (hrun : s.isRunning = true) (hlt : s.roundCount < maxRounds) :
      Step s (nextTurnFailure s emsg)
  | doReset (s : SessionState) : Step s (reset s)
  | doStop (s : SessionState) : Step s (stopDebate s)
  | doStart (s : SessionState) : Step s (startConversation s)
  | startTurnSuccess (s : SessionState) (content : String) :
      Step s (nextTurnSuccess (startConversation s) ⟨s.turn, content⟩)
  | startTurnFailure (s : SessionState) (emsg : String) :
      Step s (nextTurnFailure (startConversation s) emsg)
  | doFinish (s : SessionState) (hrun : s.isRunning = true)
      (hge : maxRounds ≤ s.roundCount) : Step s (autoFinish s)
  | doMarkExportable (s : SessionState) (hge : maxRounds ≤ s.roundCount)
      (hne : s.history.length > 0) : Step s (markExportable s)
  | doSetTopic (s : SessionState) (t : String) : Step s (setTopic s t)

/-- The session states reachable from the initial render. -/
inductive Reachable : SessionState → Prop
  | init : Reachable initialState
  | step {s t : SessionState} : Reachable s → Step s t → Reachable t

/-- `chainTo sp h t`: the history `h` alternates speakers starting with `sp`,
and `t` is the speaker due after `h`. -/
def chainTo : Speaker → List ChatMsg → Speaker → Bool
  | sp, [], t => sp == t
  | sp, m :: rest, t => m.speaker == sp && chainTo sp.flip rest t

/-- The controller invariant. Because a restart can commit a first message by
the stale pre-reset turn (`Step.startTurnSuccess`), only the tail of the
history is guaranteed to alternate: every message after the first alternates
starting from `llama`, with `turn` the speaker due next; an empty history
always has `openai` due; and the round counter equals the history length. -/
def SessionInv (s : SessionState) : Prop :=
  s.roundCount = s.history.length ∧
  (s.history = [] → s.turn = Speaker.openai) ∧
  ∀ m0 rest, s.history = m0 :: rest → chainTo Speaker.llama rest s.turn = true

theorem Speaker.flip_ne (sp : Speaker) : sp.flip ≠ sp := by
  cases sp <;> simp [Speaker.flip]

/-- Appending a message by the due speaker extends an alternating history and
advances the due speaker. -/
theorem chainTo_snoc (h : List ChatMsg) (sp t : Speaker) (c : String)
    (hch : chainTo sp h t = true) :
    chainTo sp (h ++ [⟨t, c⟩]) t.flip = true := by
  induction h generalizing sp with
  | nil =>
    simp [chainTo] at hch
    subst hch
    simp [chainTo]
  | cons m rest ih =>
    simp [chainTo] at hch ⊢
    exact ⟨hch.1, ih _ hch.2⟩

theorem chainTo_head (m : ChatMsg) (rest : List ChatMsg) (sp t : Speaker)
    (hch : chainTo sp (m :: rest) t = true) : m.speaker = sp := by
  simp [chainTo] at hch
  exact hch.1

theorem chainTo_first (h : List ChatMsg) (sp t : Speaker) (hch : chainTo sp h t = true)
    (h0 : 0 < h.length) : (h.get ⟨0, h0⟩).speaker = sp := by
  cases h with
  | nil => simp at h0
  | cons m rest => exact chainTo_head m rest sp t hch

/-- In an alternating history, adjacent messages have distinct speakers. -/
theorem chainTo_adjacent (h : List ChatMsg) (sp t : Speaker) (hch : chainTo sp h t = true) :
    ∀ i, (hi : i + 1 < h.length) →
      (h.get ⟨i, by omega⟩).speaker ≠ (h.get ⟨i + 1, hi⟩).speaker := by
  induction h generalizing sp with
  | nil => intro i hi; simp at hi
  | cons m rest ih =>
    intro i hi
    simp only [chainTo, Bool.and_eq_true, beq_iff_eq] at hch
    obtain ⟨h1, h2⟩ := hch
    cases i with
    | zero =>
      cases rest with
      | nil => simp at hi
      | cons m2 rest2 =>
        have hm2 := chainTo_head m2 rest2 sp.flip t h2
        simp only [List.get_eq_getElem, List.getElem_cons_succ, List.getElem_cons_zero]
        rw [h1, hm2]
        exact fun hEq => Speaker.flip_ne sp hEq.symm
    | succ j =>
      have hj : j + 1 < rest.length := by simpa using hi
      have hrec := ih sp.flip h2 j hj
      simpa only [List.get_eq_getElem, List.getElem_cons_succ] using hrec

/-- Whatever the prior state, the state `startConversation` commits has an
empty history: a non-empty history is cleared by the `reset()` branch. -/
theorem startConversation_history (s : SessionState) :
    (startConversation s).history = [] := by
  by_cases hl : s.history.length > 0
  · simp [startConversation, reset, hl]
  · have hnil : s.history = [] := by
      cases hcase : s.history with
      | nil => rfl
      | cons a l => rw [hcase] at hl; simp at hl
    simp [startConversation, hl, hnil]

theorem startConversation_turn (s : SessionState)
    (hemp : s.history = [] → s.turn = Speaker.openai) :
    (startConversation s).turn = Speaker.openai := by
  by_cases hl : s.history.length > 0
  · simp [startConversation, reset, hl]
  · have hnil : s.history = [] := by
      cases hcase : s.history with
      | nil => rfl
      | cons a l => rw [hcase] at hl; simp at hl
    simp [startConversation, hl, hemp hnil]

theorem startConversation_roundCount (s : SessionState)
    (h0 : s.history = [] → s.roundCount = 0) :
    (startConversation s).roundCount = 0 := by
  by_cases hl : s.history.length > 0
  · simp [startConversation, reset, hl]
  · have hnil : s.history = [] := by
      cases hcase : s.history with
      | nil => rfl
      | cons a l => rw [hcase] at hl; simp at hl
    simp [startConversation, hl, h0 hnil]

/-- Every controller transition preserves the session invariant. -/
theorem sessionInv_step {s t : SessionState} (hs : SessionInv s) (hst : Step s t) :
    SessionInv t := by
  obtain ⟨hrc, hemp, htail⟩ := hs
  cases hst with
  | turnSuccess content hrun hlt =>
    refine ⟨by simp [nextTurnSuccess, hrc], by simp [nextTurnSuccess], ?_⟩
    intro m0 rest hh
    simp only [nextTurnSuccess] at hh ⊢
    cases hcase : s.history with
    | nil =>
      rw [hcase] at hh
      simp only [List.nil_append, List.cons.injEq] at hh
      obtain ⟨hm0, hrest⟩ := hh
      have ht : s.turn = Speaker.openai := hemp hcase
      subst hrest
      simp [chainTo, ht, Speaker.flip]
    | cons m1 rest1 =>
      rw [hcase] at hh
      simp only [List.cons_append, List.cons.injEq] at hh
      obtain ⟨hm0, hrest⟩ := hh
      subst hrest
      exact chainTo_snoc rest1 Speaker.llama s.turn content (htail m1 rest1 hcase)
  | turnFailure emsg hrun hlt => exact ⟨hrc, hemp, htail⟩
  | doReset =>
    refine ⟨by simp [reset], by simp [reset], ?_⟩
    intro m0 rest hh
    simp [reset] at hh
  | doStop => exact ⟨hrc, hemp, htail⟩
  | doStart =>
    refine ⟨?_, fun _ => startConversation_turn s hemp, ?_⟩
    · rw [startConversation_roundCount s (fun hnil => by rw [hrc, hnil]; rfl),
        startConversation_history s]
      rfl
    · intro m0 rest hh
      rw [startConversation_history s] at hh
      simp at hh
  | startTurnSuccess content =>
    have h1 := startConversation_history s
    have h1t := startConversation_turn s hemp
    have h1rc := startConversation_roundCount s (fun hnil => by rw [hrc, hnil]; rfl)
    refine ⟨by simp [nextTurnSuccess, h1, h1rc], by simp [nextTurnSuccess, h1], ?_⟩
    intro m0 rest hh
    simp only [nextTurnSuccess, h1, List.nil_append, List.cons.injEq] at hh
    obtain ⟨hm0, hrest⟩ := hh
    subst hrest
    simp [chainTo, nextTurnSuccess, h1t, Speaker.flip]
  | startTurnFailure emsg =>
    have h1 := startConversation_history s
    have h1t := startConversation_turn s hemp
    have h1rc := startConversation_roundCount s (fun hnil => by rw [hrc, hnil]; rfl)
    refine ⟨by simp [nextTurnFailure, h1, h1rc], by simp [nextTurnFailure, h1, h1t], ?_⟩
    intro m0 rest hh
    simp [nextTurnFailure, h1] at hh
  | doFinish hrun hge => exact ⟨hrc, hemp, htail⟩
  | doMarkExportable hge hne => exact ⟨hrc, hemp, htail⟩
  | doSetTopic tp => exact ⟨hrc, hemp, htail⟩

/-- Every reachable session state satisfies the session invariant. -/
theorem reachable_inv {s : SessionState} (h : Reachable s) : SessionInv s := by
  induction h with
  | init =>
    refine ⟨rfl, fun _ => rfl, ?_⟩
    intro m0 rest hh
    simp [initialState] at hh
  | step hr hst ih => exact sessionInv_step ih hst

/-- Every controller transition keeps the round counter at or below the cap
(the session invariant supplies `roundCount = 0` on empty histories for the
restart-fired turn, which has no guard of its own). -/
theorem roundCount_le_step {s t : SessionState} (hs : s.roundCount ≤ maxRounds)
    (hinv : SessionInv s) (hst : Step s t) : t.roundCount ≤ maxRounds := by
  have h1rc := startConversation_roundCount s (fun hnil => by rw [hinv.1, hnil]; rfl)
  cases hst with
  | turnSuccess content hrun hlt => simpa [nextTurnSuccess] using hlt
  | turnFailure emsg hrun hlt => exact hs
  | doReset => simp [reset]
  | doStop => exact hs
  | doStart =>
    by_cases hl : s.history.length > 0
    · simp [startConversation, reset, hl]
    · simpa [startConversation, hl] using hs
  | startTurnSuccess content => simp [nextTurnSuccess, h1rc, maxRounds]
  | startTurnFailure emsg => simp [nextTurnFailure, h1rc]
  | doFinish hrun hge => exact hs
  | doMarkExportable hge hne => exact hs
  | doSetTopic tp => exact hs

theorem reachable_roundCount_le {s : SessionState} (h : Reachable s) :
    s.roundCount ≤ maxRounds := by
  induction h with
  | init => simp [initialState, maxRounds]
  | step hr hst ih => exact roundCount_le_step ih (reachable_inv hr) hst

/-- A session that was just started from the initial render. -/
def demoStart : SessionState := startConversation initialState

theorem demoStart_reachable : Reachable demoStart :=
  Reachable.step Reachable.init (Step.doStart initialState)

/-- The session after `n` consecutive successful turns following `demoStart`. -/
def demoRun : Nat → SessionState
  | 0 => demoStart
  | n + 1 => nextTurnSuccess (demoRun n) ⟨(demoRun n).turn, "respuesta"⟩

theorem demoRun_fields : ∀ n, (demoRun n).roundCount = n ∧ (demoRun n).isRunning = true := by
  intro n
  induction n with
  | zero => exact ⟨rfl, rfl⟩
  | succ k ih =>
    refine ⟨?_, ?_⟩
    · simp [demoRun, nextTurnSuccess, ih.1]
    · simp [demoRun, nextTurnSuccess, ih.2]

theorem demoRun_reachable : ∀ n, n ≤ 10 → Reachable (demoRun n) := by
  intro n
  induction n with
  | zero => exact fun _ => demoStart_reachable
  | succ k ih =>
    intro hk
    refine Reachable.step (ih (by omega)) (Step.turnSuccess _ "respuesta" (demoRun_fields k).2 ?_)
    have hrc := (demoRun_fields k).1
    simp [maxRounds, hrc]
    omega

/-- The state a conversation restart commits when clicked at the 1-turn state
(history `[{openai, ..}]`, turn `llama`): `startConversation` resets, but the
`nextTurn` it fired picks `/api/llama-turn` from the stale pre-reset turn, so
a `llama` message lands as the first entry of the fresh history. -/
def staleState1 : SessionState :=
  nextTurnSuccess (startConversation (demoRun 1)) ⟨(demoRun 1).turn, "hola"⟩

/-- One further (timer-fired) turn after the stale restart: its endpoint is
chosen from the committed turn, which is again `llama`. -/
def staleState2 : SessionState :=
  nextTurnSuccess staleState1 ⟨staleState1.turn, "hola de nuevo"⟩

theorem staleState2_reachable : Reachable staleState2 :=
  Reachable.step
    (Reachable.step (demoRun_reachable 1 (by decide)) (Step.startTurnSuccess _ "hola"))
    (Step.turnSuccess _ "hola de nuevo" (by decide) (by decide))

/-- C1: the claim fails on the code. Run one turn, then click restart: the
`void nextTurn()` fired by `startConversation` (`src/app/page.tsx:142-147`)
binds its endpoint to the stale pre-reset `turn` (`src/app/page.tsx:94`) while
its functional updates apply to the post-reset state, so the code commits a
reachable state whose first message is by `llama` and whose first two messages
are both by `llama` — contradicting both conjuncts of the claim, the spec's
invariant, and the page's own text "Se alternarán turnos entre OpenAI y
Ollama" (`src/app/page.tsx:314`). This theorem evaluates the embedding on that
trace. -/
theorem C1_stale_restart_trace :
    Reachable staleState2 ∧
    staleState2.history.length = 2 ∧
    (staleState2.history.get ⟨0, by decide⟩).speaker = Speaker.llama ∧
    (staleState2.history.get ⟨0, by decide⟩).speaker =
      (staleState2.history.get ⟨1, by decide⟩).speaker :=
  ⟨staleState2_reachable, by decide, by decide, by decide⟩

/-- C9: from every session state, `reset()` yields empty history, a zero round
count, `openai` to speak, a stopped run and no recorded error. -/
theorem C9_reset_state (s : SessionState) :
    (reset s).history = [] ∧ (reset s).roundCount = 0 ∧
    (reset s).turn = Speaker.openai ∧ (reset s).isRunning = false ∧
    (reset s).error = none :=
  ⟨rfl, rfl, rfl, rfl, rfl⟩

/-- C10: in every reachable session state the round counter equals the length
of the history: the two are updated together by every transition. -/
theorem C10_roundCount_eq_length {s : SessionState} (h : Reachable s) :
    s.roundCount = s.history.length :=
  (reachable_inv h).1

/-- Witness for C10 at the concrete reachable state with three completed
turns: the counter reads 3 and the history holds 3 messages. -/
theorem C10_witness : (demoRun 3).roundCount = (demoRun 3).history.length :=
  C10_roundCount_eq_length (demoRun_reachable 3 (by decide))

/-- C2: in every reachable session state the round counter never exceeds
`maxRounds`; and when a running session stands at the cap, the
auto-continuation effect's finish transition (which stops the run) is the
enabled controller reaction, and no transition from that state appends a
message. -/
theorem C2_round_cap {s : SessionState} (h : Reachable s) :
    s.roundCount ≤ maxRounds ∧
      (s.isRunning = true → s.roundCount = maxRounds →
        Step s (autoFinish s) ∧ (autoFinish s).isRunning = false ∧
          (autoFinish s).history = s.history ∧
          ∀ t, Step s t → t.history.length ≤ s.history.length) := by
  have hlen : s.roundCount = s.history.length := (reachable_inv h).1
  have hmr : maxRounds = 10 := rfl
  refine ⟨reachable_roundCount_le h, fun hrun hcap => ⟨Step.doFinish s hrun (by omega), rfl, rfl, ?_⟩⟩
  intro t hst
  cases hst with
  | turnSuccess content hrun2 hlt => omega
  | turnFailure emsg hrun2 hlt => exact le_refl _
  | doReset => simp [reset]
  | doStop => exact le_refl _
  | doStart =>
    by_cases hl : s.history.length > 0 <;> simp [startConversation, reset, hl]
  | startTurnSuccess content =>
    simp only [nextTurnSuccess, startConversation_history s, List.nil_append,
      List.length_cons, List.length_nil]
    omega
  | startTurnFailure emsg =>
    simp only [nextTurnFailure, startConversation_history s, List.length_nil]
    omega
  | doFinish hrun2 hge => exact le_refl _
  | doMarkExportable hge hne => exact le_refl _
  | doSetTopic tp => exact le_refl _

/-- Witness for C2 at the concrete reachable state with ten completed turns:
the counter stands at the cap and the finish transition stopping the run is
enabled. -/
theorem C2_witness :
    (demoRun 10).roundCount ≤ maxRounds ∧
    Step (demoRun 10) (autoFinish (demoRun 10)) ∧
    (autoFinish (demoRun 10)).isRunning = false := by
  have h := C2_round_cap (demoRun_reachable 10 (by decide))
  have h2 := h.2 (demoRun_fields 10).2 (by rw [(demoRun_fields 10).1]; rfl)
  exact ⟨h.1, h2.1, h2.2.1⟩

/-- C3: a non-success upstream response to the llama route, or a thrown
exception in either route, produces an error payload and never a message;
and the controller's handling of an error result leaves the history
unchanged, records the error text and stops the run. -/
theorem C3_failure_halts (s : SessionState) (body : TurnReqBody)
    (r : UpstreamResp) (hok : r.ok = false) (e : Option String) :
    llamaPOST body (.ok r) =
        .err ("Ollama error " ++ toString r.status ++ ": " ++ r.bodyText) 500 ∧
    llamaPOST body (.error e) = .err (e.getD "Ollama error") 500 ∧
    openaiPOST body (.error e) = .err (e.getD "OpenAI error") 500 ∧
    (∀ emsg st,
      (applyTurnResult s (.err emsg st)).history = s.history ∧
      (applyTurnResult s (.err emsg st)).error = some emsg ∧
      (applyTurnResult s (.err emsg st)).isRunning = false) := by
  refine ⟨by simp [llamaPOST, hok], rfl, rfl, fun emsg st => ⟨rfl, rfl, rfl⟩⟩

/-- Witness for C3: a concrete status-500 upstream response yields an error
payload, and feeding an error result to a concrete running state halts it
with the history intact. -/
theorem C3_witness :
    llamaPOST ⟨[], none⟩ (.ok ⟨false, 500, "boom", none⟩) =
        .err ("Ollama error " ++ toString 500 ++ ": " ++ "boom") 500 ∧
    (applyTurnResult demoStart (.err "boom" 500)).history = demoStart.history ∧
    (applyTurnResult demoStart (.err "boom" 500)).error = some "boom" ∧
    (applyTurnResult demoStart (.err "boom" 500)).isRunning = false := by
  have h := C3_failure_halts demoStart ⟨[], none⟩ ⟨false, 500, "boom", none⟩ rfl none
  exact ⟨h.1, h.2.2.2 "boom" 500⟩

/-- C5: with empty history and topic `X`, the openai route's request carries a
user-role message whose content contains `X` verbatim (the opening prompt is
synthesized from the topic). -/
theorem C5_opening_prompt_contains_topic (X : String) :
    ((openaiInput [] (some X)).get ⟨1, by simp [openaiInput]⟩).role = "user" ∧
    ∃ p q, ((openaiInput [] (some X)).get ⟨1, by simp [openaiInput]⟩).content = p ++ X ++ q := by
  refine ⟨rfl, "Inicia una conversación con otro LLM sobre este tema: \"", "\".", ?_⟩
  show openaiUserContent [] (some X) = _
  simp [openaiUserContent, openaiTranscript]

/-- C6: for every history, the llama route's message list carries one entry
per history message, in order, at offset one (after the system message), each
encoded as the uppercased speaker tag, `": "`, then the content. -/
theorem C6_llama_transcript (history : List ChatMsg) (hne : history ≠ []) :
    ∀ i, (hi : i < history.length) →
      (llamaMessages history).get ⟨i + 1, by simp [llamaMessages]; omega⟩ =
        ⟨"assistant",
          upperAscii (history.get ⟨i, hi⟩).speaker.str ++ ": " ++
            (history.get ⟨i, hi⟩).content⟩ := by
  intro i hi
  simp only [llamaMessages, List.get_eq_getElem, List.getElem_cons_succ]
  rw [List.getElem_append_left (by simpa using hi)]
  simp [List.getElem_map]

/-- Witness for C6 on the history `[{openai, "hi"}, {llama, "hello"}]`: the
second transcript entry is the uppercased-label encoding of the second
history message. -/
theorem C6_witness :
    (llamaMessages [⟨.openai, "hi"⟩, ⟨.llama, "hello"⟩]).get ⟨2, by simp [llamaMessages]⟩ =
      ⟨"assistant",
        upperAscii (([⟨.openai, "hi"⟩, ⟨.llama, "hello"⟩] : List ChatMsg).get
            ⟨1, by decide⟩).speaker.str ++ ": " ++
          (([⟨.openai, "hi"⟩, ⟨.llama, "hello"⟩] : List ChatMsg).get ⟨1, by decide⟩).content⟩ :=
  C6_llama_transcript [⟨.openai, "hi"⟩, ⟨.llama, "hello"⟩] (by decide) 1 (by decide)

/-- C7: on a successful upstream reply both routes answer with a message (not
an error) whose content is the reply trimmed of surrounding whitespace, with
an all-whitespace reply replaced by the fixed non-empty placeholder. -/
theorem C7_reply_trimmed (reply : String) (body : TurnReqBody)
    (status : Nat) (bodyText : String) :
    openaiPOST body (.ok (some reply)) =
        .msg ⟨.openai, if jsTrim reply = "" then "(sin respuesta)" else jsTrim reply⟩ ∧
    llamaPOST body (.ok ⟨true, status, bodyText, some reply⟩) =
        .msg ⟨.llama, if jsTrim reply = "" then "(sin respuesta)" else jsTrim reply⟩ ∧
    "(sin respuesta)" ≠ "" := by
  refine ⟨?_, ?_, by decide⟩ <;> simp [openaiPOST, llamaPOST, extractReply]

/-- C8: the llama route never reads the topic: two request bodies with the
same history produce the identical outbound Ollama request and the identical
route result, whatever their topics. -/
theorem C8_llama_topic_noninterference (b1 b2 : TurnReqBody) (hh : b1.history = b2.history)
    (envBaseUrl envModel : Option String) (outcome : Except (Option String) UpstreamResp) :
    llamaOutbound envBaseUrl envModel b1 = llamaOutbound envBaseUrl envModel b2 ∧
    llamaPOST b1 outcome = llamaPOST b2 outcome := by
  exact ⟨by simp [llamaOutbound, hh], rfl⟩

/-- Witness for C8 on two concrete bodies sharing a history but with
different topics. -/
theorem C8_witness :
    llamaOutbound none none ⟨[⟨.openai, "hi"⟩], some "tema A"⟩ =
        llamaOutbound none none ⟨[⟨.openai, "hi"⟩], none⟩ ∧
    llamaPOST ⟨[⟨.openai, "hi"⟩], some "tema A"⟩ (.ok ⟨true, 200, "", some "ok"⟩) =
        llamaPOST ⟨[⟨.openai, "hi"⟩], none⟩ (.ok ⟨true, 200, "", some "ok"⟩) :=
  C8_llama_topic_noninterference ⟨[⟨.openai, "hi"⟩], some "tema A"⟩
    ⟨[⟨.openai, "hi"⟩], none⟩ rfl none none (.ok ⟨true, 200, "", some "ok"⟩)

/-- One lowercase hexadecimal digit, as `JSON.stringify` prints it. -/
def hexDigit (n : Nat) : Char :=
  if n < 10 then Char.ofNat (48 + n) else Char.ofNat (87 + n)

/-- JSON string escaping of one character, exactly as `JSON.stringify` emits
it: quote, backslash and the named control escapes, `\u00xx` for the other
control characters, and everything else verbatim. -/
def escChar (c : Char) : List Char :=
  if c = '"' then ['\\', '"']
  else if c = '\\' then ['\\', '\\']
  else if c = '\x08' then ['\\', 'b']
  else if c = '\x0c' then ['\\', 'f']
  else if c = '\n' then ['\\', 'n']
  else if c = '\r' then ['\\', 'r']
  else if c = '\t' then ['\\', 't']
  else if c.toNat < 32 then ['\\', 'u', '0', '0', hexDigit (c.toNat / 16), hexDigit (c.toNat % 16)]
  else [c]

def escList : List Char → List Char
  | [] => []
  | c :: cs => escChar c ++ escList cs

/-- The body of the JSON string literal for `s` (without the quotes). -/
def escString (s : String) : String := String.mk (escList s.data)

/-- One history message inside the exported JSON: an object nested in the
`history` array, laid out by `JSON.stringify(·, null, 2)` with 4- and 6-space
indents. -/
def renderMsg (m : ChatMsg) : String :=
  "    \x7b\n      \"speaker\": \"" ++ escString m.speaker.str ++
    "\",\n      \"content\": \"" ++ escString m.content ++ "\"\n    \x7d"

/-- The later elements of the `history` array (comma-separated), then the
array's closing bracket at 2-space indent. -/
def renderMsgsTail : List ChatMsg → String
  | [] => "\n  ]"
  | m :: rest => ",\n" ++ renderMsg m ++ renderMsgsTail rest

/-- The `history` array: `[]` when empty, otherwise the multi-line layout of
`JSON.stringify(·, null, 2)`. -/
def renderHistory : List ChatMsg → String
  | [] => "[]"
  | m :: rest => "[\n" ++ renderMsg m ++ renderMsgsTail rest

/-- The structured export: `JSON.stringify({ topic, history }, null, 2)`
(`src/app/page.tsx:168`), modelled as the exact text that call emits. -/
def exportJSON (topic : String) (history : List ChatMsg) : String :=
  "\x7b\n  \"topic\": \"" ++ escString topic ++ "\",\n  \"history\": " ++
    renderHistory history ++ "\n\x7d"

/-- Consumes an exact expected prefix. -/
def expectL : List Char → List Char → Option (List Char)
  | [], s => some s
  | _ :: _, [] => none
  | p :: ps, c :: cs => if c = p then expectL ps cs else none

def parseHexDigit (c : Char) : Option Nat :=
  if 48 ≤ c.toNat ∧ c.toNat ≤ 57 then some (c.toNat - 48)
  else if 97 ≤ c.toNat ∧ c.toNat ≤ 102 then some (c.toNat - 87)
  else if 65 ≤ c.toNat ∧ c.toNat ≤ 70 then some (c.toNat - 55)
  else none

/-- The single-character JSON escapes. -/
def unescChar (e : Char) : Option Char :=
  if e = '"' then some '"'
  else if e = '\\' then some '\\'
  else if e = '/' then some '/'
  else if e = 'b' then some '\x08'
  else if e = 'f' then some '\x0c'
  else if e = 'n' then some '\n'
  else if e = 'r' then some '\r'
  else if e = 't' then some '\t'
  else none

/-- Reads four hex digits, yielding their value and the remaining input. -/
def parseHex4 : List Char → Option (Nat × List Char)
  | a :: b :: c :: d :: rest =>
    match parseHexDigit a, parseHexDigit b, parseHexDigit c, parseHexDigit d with
    | some x1, some x2, some x3, some x4 =>
      some (((x1 * 16 + x2) * 16 + x3) * 16 + x4, rest)
    | _, _, _, _ => none
  | _ => none

/-- Decodes what follows a backslash inside a JSON string literal: a `\u`
escape with four hex digits, or a named one-character escape. -/
def unescEscape : List Char → Option (Char × List Char)
  | [] => none
  | e :: rest =>
    if e = 'u' then (parseHex4 rest).map (fun p => (Char.ofNat p.1, p.2))
    else (unescChar e).map (fun ec => (ec, rest))

/-- Reads the body of a JSON string literal up to its closing quote, undoing
the escapes; yields the decoded characters and the remaining input. `fuel`
bounds the number of decoded characters (callers pass the input length). -/
def parseStrBodyF : Nat → List Char → Option (List Char × List Char)
  | 0, _ => none
  | _ + 1, [] => none
  | fuel + 1, c :: rest =>
    if c = '"' then some ([], rest)
    else if c = '\\' then
      (unescEscape rest).bind
        (fun p => (parseStrBodyF fuel p.2).map (fun q => (p.1 :: q.1, q.2)))
    else (parseStrBodyF fuel rest).map (fun p => (c :: p.1, p.2))


def parseSpeaker (s : String) : Option Speaker :=
  if s = "openai" then some .openai
  else if s = "llama" then some .llama
  else none

/-- Reads one history-message object of the export layout. -/
def parseMsgL (s : List Char) : Option (ChatMsg × List Char) := do
  let s1 ← expectL ("    \x7b\n      \"speaker\": \"").data s
  let (spChars, s2) ← parseStrBodyF s1.length s1
  let sp ← parseSpeaker (String.mk spChars)
  let s3 ← expectL (",\n      \"content\": \"").data s2
  let (ctChars, s4) ← parseStrBodyF s3.length s3
  let s5 ← expectL ("\n    \x7d").data s4
  return (⟨sp, String.mk ctChars⟩, s5)

/-- Reads the later array elements (comma-prefixed) up to the closing
bracket; `fuel` bounds the number of elements. -/
def parseMsgsTail : Nat → List Char → Option (List ChatMsg × List Char)
  | 0, _ => none
  | fuel + 1, s =>
    match expectL [',', '\n'] s with
    | some s1 => do
      let (m, s2) ← parseMsgL s1
      let (ms, s3) ← parseMsgsTail fuel s2
      return (m :: ms, s3)
    | none => do
      let s1 ← expectL ("\n  ]").data s
      return ([], s1)

/-- Reads the `history` array of the export layout. -/
def parseHistoryL (s : List Char) : Option (List ChatMsg × List Char) :=
  match expectL ['[', ']'] s with
  | some s1 => some ([], s1)
  | none => do
    let s1 ← expectL ['[', '\n'] s
    let (m, s2) ← parseMsgL s1
    let (ms, s3) ← parseMsgsTail s2.length s2
    return (m :: ms, s3)

/-- Modelled from the spec: the repository only writes the structured export
("Export to structured form and back must reproduce the same `{topic,
history}` pair"); reading it back is `JSON.parse` at the consumer, which is
not part of the repository. This parser reads exactly the JSON grammar
`exportJSON` emits — the fixed object/array layout with full JSON string
literals — and recovers the `{topic, history}` pair. -/
def parseExport (s : String) : Option (String × List ChatMsg) := do
  let s1 ← expectL ("\x7b\n  \"topic\": \"").data s.data
  let (tChars, s2) ← parseStrBodyF s1.length s1
  let s3 ← expectL (",\n  \"history\": ").data s2
  let (h, s4) ← parseHistoryL s3
  let s5 ← expectL ("\n\x7d").data s4
  if s5 = [] then return (String.mk tChars, h) else none

theorem string_mk_data (s : String) : String.mk s.data = s := rfl

theorem escString_data (s : String) : (escString s).data = escList s.data := rfl

theorem expectL_prefix (p r : List Char) : expectL p (p ++ r) = some r := by
  induction p with
  | nil => rfl
  | cons c cs ih => simp [expectL, ih]

theorem parseHexDigit_hexDigit : ∀ k, k < 16 → parseHexDigit (hexDigit k) = some k := by decide

theorem unescEscape_named (e ec : Char) (hu : unescChar e = some ec) (X : List Char) :
    unescEscape (e :: X) = some (ec, X) := by
  have hne : ¬e = 'u' := by
    intro h
    subst h
    simp [unescChar] at hu
  simp [unescEscape, hne, hu]

theorem unescEscape_u (q r : Nat) (hq : q < 16) (hr : r < 16) (X : List Char) :
    unescEscape ('u' :: '0' :: '0' :: hexDigit q :: hexDigit r :: X) =
      some (Char.ofNat (q * 16 + r), X) := by
  have h0 : parseHexDigit '0' = some 0 := by decide
  simp [unescEscape, parseHex4, h0, parseHexDigit_hexDigit q hq, parseHexDigit_hexDigit r hr]

theorem parseStrBodyF_quote (fuel : Nat) (rest : List Char) :
    parseStrBodyF (fuel + 1) ('"' :: rest) = some ([], rest) := by
  simp [parseStrBodyF]

theorem parseStrBodyF_other (fuel : Nat) (c : Char) (X : List Char) (h1 : ¬c = '"')
    (h2 : ¬c = '\\') :
    parseStrBodyF (fuel + 1) (c :: X) =
      (parseStrBodyF fuel X).map (fun p => (c :: p.1, p.2)) := by
  simp [parseStrBodyF, h1, h2]

theorem parseStrBodyF_esc (fuel : Nat) (X : List Char) :
    parseStrBodyF (fuel + 1) ('\\' :: X) =
      (unescEscape X).bind
        (fun p => (parseStrBodyF fuel p.2).map (fun q => (p.1 :: q.1, q.2))) := by
  simp [parseStrBodyF]

/-- The string-body parser undoes `JSON.stringify`'s character escaping. -/
theorem parseStrBodyF_escList : ∀ (cs : List Char) (fuel : Nat) (rest : List Char),
    cs.length < fuel →
    parseStrBodyF fuel (escList cs ++ '"' :: rest) = some (cs, rest) := by
  intro cs
  induction cs with
  | nil =>
    intro fuel rest hf
    cases fuel with
    | zero => omega
    | succ f => simp [escList, parseStrBodyF]
  | cons c cs ih =>
    intro fuel rest hf
    cases fuel with
    | zero => omega
    | succ f =>
      have hf2 : cs.length < f := by
        simp only [List.length_cons] at hf
        omega
      show parseStrBodyF (f + 1) ((escChar c ++ escList cs) ++ '"' :: rest) = _
      rw [List.append_assoc]
      by_cases h1 : c = '"'
      · subst h1
        rw [show escChar '"' = ['\\', '"'] from rfl]
        simp only [List.cons_append, List.nil_append]
        rw [parseStrBodyF_esc, unescEscape_named '"' '"' (by decide)]
        simp [ih _ _ hf2]
      by_cases h2 : c = '\\'
      · subst h2
        rw [show escChar '\\' = ['\\', '\\'] from rfl]
        simp only [List.cons_append, List.nil_append]
        rw [parseStrBodyF_esc, unescEscape_named '\\' '\\' (by decide)]
        simp [ih _ _ hf2]
      by_cases h3 : c = '\x08'
      · subst h3
        rw [show escChar '\x08' = ['\\', 'b'] from rfl]
        simp only [List.cons_append, List.nil_append]
        rw [parseStrBodyF_esc, unescEscape_named 'b' '\x08' (by decide)]
        simp [ih _ _ hf2]
      by_cases h4 : c = '\x0c'
      · subst h4
        rw [show escChar '\x0c' = ['\\', 'f'] from rfl]
        simp only [List.cons_append, List.nil_append]
        rw [parseStrBodyF_esc, unescEscape_named 'f' '\x0c' (by decide)]
        simp [ih _ _ hf2]
      by_cases h5 : c = '\n'
      · subst h5
        rw [show escChar '\n' = ['\\', 'n'] from rfl]
        simp only [List.cons_append, List.nil_append]
        rw [parseStrBodyF_esc, unescEscape_named 'n' '\n' (by decide)]
        simp [ih _ _ hf2]
      by_cases h6 : c = '\r'
      · subst h6
        rw [show escChar '\r' = ['\\', 'r'] from rfl]
        simp only [List.cons_append, List.nil_append]
        rw [parseStrBodyF_esc, unescEscape_named 'r' '\r' (by decide)]
        simp [ih _ _ hf2]
      by_cases h7 : c = '\t'
      · subst h7
        rw [show escChar '\t' = ['\\', 't'] from rfl]
        simp only [List.cons_append, List.nil_append]
        rw [parseStrBodyF_esc, unescEscape_named 't' '\t' (by decide)]
        simp [ih _ _ hf2]
      by_cases h8 : c.toNat < 32
      · have hesc : escChar c =
            ['\\', 'u', '0', '0', hexDigit (c.toNat / 16), hexDigit (c.toNat % 16)] := by
          simp [escChar, h1, h2, h3, h4, h5, h6, h7, h8]
        rw [hesc]
        simp only [List.cons_append, List.nil_append]
        rw [parseStrBodyF_esc, unescEscape_u (c.toNat / 16) (c.toNat % 16) (by omega) (by omega)]
        have hval : c.toNat / 16 * 16 + c.toNat % 16 = c.toNat := by omega
        rw [hval, Char.ofNat_toNat]
        simp [ih _ _ hf2]
      · have hesc : escChar c = [c] := by
          simp [escChar, h1, h2, h3, h4, h5, h6, h7, h8]
        rw [hesc]
        simp only [List.cons_append, List.nil_append]
        rw [parseStrBodyF_other f c _ h1 h2]
        simp [ih _ _ hf2]

theorem expectL_self (p : List Char) : expectL p p = some [] := by
  simpa using expectL_prefix p []

theorem parseSpeaker_str (sp : Speaker) : parseSpeaker sp.str = some sp := by
  cases sp <;> rfl

theorem escList_length_ge : ∀ cs : List Char, cs.length ≤ (escList cs).length := by
  intro cs
  induction cs with
  | nil => simp [escList]
  | cons c cs ih =>
    have h1 : 1 ≤ (escChar c).length := by
      unfold escChar
      split_ifs <;> simp
    simp only [escList, List.length_append, List.length_cons]
    omega

/-- The string-body parser, run with the input length as fuel, undoes the
escaping: the fuel is always sufficient. -/
theorem parseStrBodyF_len (cs rest : List Char) :
    parseStrBodyF (escList cs ++ '"' :: rest).length (escList cs ++ '"' :: rest) =
      some (cs, rest) := by
  apply parseStrBodyF_escList
  have := escList_length_ge cs
  simp only [List.length_append, List.length_cons]
  omega

theorem dataSplit_content :
    ("\",\n      \"content\": \"" : String).data =
      '"' :: (",\n      \"content\": \"" : String).data := rfl

theorem dataSplit_msgEnd :
    ("\"\n    \x7d" : String).data = '"' :: ("\n    \x7d" : String).data := rfl

theorem dataSplit_history :
    ("\",\n  \"history\": " : String).data = '"' :: (",\n  \"history\": " : String).data := rfl

/-- The message parser undoes the message renderer. -/
theorem parseMsgL_render (m : ChatMsg) (rest : List Char) :
    parseMsgL ((renderMsg m).data ++ rest) = some (m, rest) := by
  obtain ⟨sp, ct⟩ := m
  simp only [renderMsg, String.data_append, escString_data, List.append_assoc,
    dataSplit_content, dataSplit_msgEnd, List.cons_append]
  simp [parseMsgL, expectL, parseStrBodyF_len, parseSpeaker_str, string_mk_data,
    -List.length_append, -List.length_cons]

theorem parseMsgsTail_succ_comma (f : Nat) (X : List Char) :
    parseMsgsTail (f + 1) (',' :: '\n' :: X) =
      (parseMsgL X).bind
        (fun p => (parseMsgsTail f p.2).bind (fun q => some (p.1 :: q.1, q.2))) := by
  have hcomma : expectL [',', '\n'] (',' :: '\n' :: X) = some X := by simp [expectL]
  rw [parseMsgsTail.eq_def]
  simp [hcomma]

theorem parseMsgsTail_succ_close (f : Nat) (rest : List Char) :
    parseMsgsTail (f + 1) ('\n' :: ' ' :: ' ' :: ']' :: rest) = some ([], rest) := rfl

theorem parseHistoryL_empty (rest : List Char) :
    parseHistoryL ('[' :: ']' :: rest) = some ([], rest) := rfl

theorem parseHistoryL_cons (X : List Char) :
    parseHistoryL ('[' :: '\n' :: X) =
      (parseMsgL X).bind
        (fun p => (parseMsgsTail p.2.length p.2).bind (fun q => some (p.1 :: q.1, q.2))) := by
  have h1 : expectL ['[', ']'] ('[' :: '\n' :: X) = none := by simp [expectL]
  have h2 : expectL ['[', '\n'] ('[' :: '\n' :: X) = some X := by simp [expectL]
  rw [parseHistoryL.eq_def]
  simp [h1, h2]

theorem renderMsgsTail_length : ∀ t : List ChatMsg, t.length < (renderMsgsTail t).data.length := by
  intro t
  induction t with
  | nil => decide
  | cons m t ih =>
    rw [show renderMsgsTail (m :: t) = ",\n" ++ renderMsg m ++ renderMsgsTail t from rfl]
    have ha : (",\n" : String).data.length = 2 := rfl
    simp only [String.data_append, List.length_append, List.length_cons, ha]
    omega

/-- The array-tail parser undoes the array-tail renderer, given enough fuel. -/
theorem parseMsgsTail_render : ∀ (t : List ChatMsg) (fuel : Nat) (rest : List Char),
    t.length < fuel →
    parseMsgsTail fuel ((renderMsgsTail t).data ++ rest) = some (t, rest) := by
  intro t
  induction t with
  | nil =>
    intro fuel rest hf
    cases fuel with
    | zero => omega
    | succ f =>
      rw [show (renderMsgsTail []).data = ['\n', ' ', ' ', ']'] from rfl]
      simp only [List.cons_append, List.nil_append]
      exact parseMsgsTail_succ_close f rest
  | cons m t ih =>
    intro fuel rest hf
    cases fuel with
    | zero => omega
    | succ f =>
      have hf2 : t.length < f := by
        simp only [List.length_cons] at hf
        omega
      rw [show renderMsgsTail (m :: t) = ",\n" ++ renderMsg m ++ renderMsgsTail t from rfl]
      simp only [String.data_append, List.append_assoc, List.cons_append, List.nil_append]
      rw [parseMsgsTail_succ_comma, parseMsgL_render m ((renderMsgsTail t).data ++ rest)]
      simp [ih f rest hf2]

/-- The history parser undoes the history renderer. -/
theorem parseHistoryL_render (h : List ChatMsg) (rest : List Char) :
    parseHistoryL ((renderHistory h).data ++ rest) = some (h, rest) := by
  cases h with
  | nil =>
    rw [show (renderHistory []).data = ['[', ']'] from rfl]
    simp only [List.cons_append, List.nil_append]
    exact parseHistoryL_empty rest
  | cons m t =>
    rw [show renderHistory (m :: t) = "[\n" ++ renderMsg m ++ renderMsgsTail t from rfl]
    simp only [String.data_append, List.append_assoc, List.cons_append, List.nil_append]
    rw [parseHistoryL_cons, parseMsgL_render m ((renderMsgsTail t).data ++ rest)]
    have hlen : t.length < (renderMsgsTail t).length + rest.length := by
      have h1 := renderMsgsTail_length t
      have h2 : (renderMsgsTail t).length = (renderMsgsTail t).data.length := rfl
      omega
    simp [parseMsgsTail_render t ((renderMsgsTail t).length + rest.length) rest hlen]

/-- C4: parsing the structured (JSON) export back yields exactly the original
`{topic, history}` pair, for every topic string and every history. -/
theorem C4_export_roundtrip (topic : String) (history : List ChatMsg) :
    parseExport (exportJSON topic history) = some (topic, history) := by
  simp only [parseExport, exportJSON, String.data_append, escString_data, List.append_assoc,
    dataSplit_history, List.cons_append]
  simp [expectL, parseStrBodyF_len, parseHistoryL_render, string_mk_data,
    -List.length_append, -List.length_cons]
